import Mathlib

set_option maxHeartbeats 1000000

/-!
Shallow embedding of the repository-indexing pipeline (tree builder,
declaration extractor, object table, relative-import resolver, snippet
assembler).  Python `ast` values are modelled by explicit inductive types
carrying the data the code reads; `ast.unparse` renderings are carried as
explicit `src` string fields.  Absolute filesystem paths are modelled as the
list of path segments below the filesystem root, so `Path.parent` is
`List.dropLast` (with the root `/` as fixpoint) and `joinpath` appends a
segment.  Fallible Python code (exceptions) is modelled with
`Except String`.
-/

/-! ### String helpers mirroring the Python string operations used -/

/-- Python word characters for the regexes in the source (`\w`). -/
def isWordChar (c : Char) : Bool := c.isAlphanum || c == '_'

/-- Python substring test `sub in l` (`sub` occurs contiguously in `l`). -/
def containsSub [BEq α] (l sub : List α) : Bool :=
  match l with
  | [] => sub.isEmpty
  | c :: t => sub.isPrefixOf (c :: t) || containsSub t sub

/-- Python `sub in s` on strings. -/
def strContains (s sub : String) : Bool := containsSub s.data sub.data

/-- Auxiliary for `pyReplace`: replace non-overlapping occurrences of `old`
(nonempty) by `new`, scanning left to right, as Python `str.replace` does.
The `Nat` fuel starts at the scanned list's length; because a nonempty
match consumes at least one character, the fuel never runs out before the
list does, so the `0, l => l` fallback is unreachable. -/
def pyReplaceFuel (old new : List Char) : Nat → List Char → List Char
  | _, [] => []
  | 0, l => l
  | fuel + 1, c :: rest =>
    if old.isPrefixOf (c :: rest) then
      new ++ pyReplaceFuel old new fuel ((c :: rest).drop old.length)
    else
      c :: pyReplaceFuel old new fuel rest

/-- Python `s.replace(old, new)`.  (For the empty `old`, Python inserts `new`
between all characters; that case is unreachable here because alias keys are
filtered to be non-empty, and we return `s` unchanged.) -/
def pyReplace (s old new : String) : String :=
  if 0 < old.data.length then
    String.mk (pyReplaceFuel old.data new.data s.data.length s.data)
  else s

/-- Split a character list on a separator, Python `str.split(sep)` semantics
(`"".split(".") = [""]`, empty pieces kept). -/
def splitCharAux (sep : Char) : List Char → List Char → List (List Char)
  | [], acc => [acc.reverse]
  | c :: cs, acc =>
    if c == sep then acc.reverse :: splitCharAux sep cs []
    else splitCharAux sep cs (c :: acc)

/-- Python `s.split(".")`. -/
def pySplitDot (s : String) : List String :=
  (splitCharAux '.' s.data []).map String.mk

/-- Python `".".join(l)`. -/
def joinDotted : List String → String
  | [] => ""
  | [s] => s
  | s :: rest => s ++ "." ++ joinDotted rest

/-- Join the rendered texts of a list of statements the way `ast.unparse`
renders a list of top-level statements: one after the other, separated by a
newline. -/
def joinLines : List String → String
  | [] => ""
  | [s] => s
  | s :: rest => s ++ "\n" ++ joinLines rest

/-- Auxiliary: join character-list pieces with a literal dot. -/
def joinWithDot : List (List Char) → List Char
  | [] => []
  | [x] => x
  | x :: rest => x ++ '.' :: joinWithDot rest

/-- `pathlib` `PurePath.stem` of a single path component: the component
without its final extension (a leading dot alone does not start an
extension, so `.bashrc` is its own stem). -/
def stemOf (s : String) : String :=
  let parts := splitCharAux '.' s.data []
  match parts with
  | [] => s
  | [_] => s
  | _ =>
    let st := joinWithDot parts.dropLast
    if st.isEmpty then s else String.mk st

/-- `pathlib` `PurePath.suffix` of a single path component. -/
def suffixOf (s : String) : String :=
  String.mk (s.data.drop (stemOf s).data.length)

/-- `name.startswith("__")` on a component's stem. -/
def stemStartsDunder (s : String) : Bool :=
  ("__".data).isPrefixOf (stemOf s).data

/-!
`strip_import_alias` (src/parser/python/update_relative_imports.py):
`re.match(r"(\w+)\s+as\s+\w+", s)` returns group 1 when it matches at the
start of `s`, otherwise the input is returned unchanged.  Because `(\w+)` is
a maximal word-character run followed by mandatory whitespace, and the
whitespace run is likewise forced maximal by the following literal `as`,
regex backtracking can never produce a different parse, so the direct
greedy scan below is exact.
-/

/-- `strip_import_alias`: turn `"X as Y"` into `"X"`, anything that does not
match the pattern is returned unchanged. -/
def stripImportAlias (s : String) : String :=
  let cs := s.data
  let w1 := cs.takeWhile isWordChar
  let r1 := cs.drop w1.length
  let sp1 := r1.takeWhile Char.isWhitespace
  let r2 := r1.drop sp1.length
  if w1.isEmpty || sp1.isEmpty then s
  else
    match r2 with
    | 'a' :: 's' :: r3 =>
      let sp2 := r3.takeWhile Char.isWhitespace
      let r4 := r3.drop sp2.length
      if sp2.isEmpty then s
      else if (r4.headD ' ' |> isWordChar) then String.mk w1 else s
    | _ => s

/-! ### Paths and association tables -/

/-- An absolute filesystem path: the segments below the filesystem root. -/
abbrev PyPath := List String

/-- `Path.parent`; `dropLast [] = []` matches `Path("/").parent == Path("/")`. -/
def pyParent (p : PyPath) : PyPath := p.dropLast

/-- `Path.joinpath(seg)` for a plain segment (`pathlib` drops empty parts). -/
def pyJoin (p : PyPath) (seg : String) : PyPath :=
  if seg = "" then p else p ++ [seg]

/-- Climb `n` directory levels (`for _ in range(n): p = p.parent`). -/
def climbParents : Nat → PyPath → PyPath
  | 0, p => p
  | k + 1, p => climbParents k (pyParent p)

/-- `Path.with_suffix(".py")`: replace the final component's extension.
(`pathlib` raises on an empty name; that case is unreachable in the resolver
because a module segment has just been appended.) -/
def withSuffixPy : PyPath → PyPath
  | [] => [".py"]
  | [s] => [String.mk ((stemOf s).data ++ ".py".data)]
  | s :: rest => s :: withSuffixPy rest

/-- `full path ends with ".py"` (`str.endswith` on the rendered path). -/
def pathEndsWithPy (p : PyPath) : Bool :=
  match p.getLast? with
  | none => false
  | some s => (".py".data).isSuffixOf s.data

/-- Association-list lookup (Python `dict.get`). -/
def alistLookup [DecidableEq κ] : List (κ × ν) → κ → Option ν
  | [], _ => none
  | kv :: rest, k => if kv.1 = k then some kv.2 else alistLookup rest k

/-- Association-list update (Python `dict[k] = v`). -/
def alistInsert [DecidableEq κ] : List (κ × ν) → κ → ν → List (κ × ν)
  | [], k, v => [(k, v)]
  | kv :: rest, k, v => if kv.1 = k then (k, v) :: rest else kv :: alistInsert rest k v

/-! ### The data model (src/_scheme.py and the Python `ast` nodes used) -/

/-- One `ast.alias` inside an import statement. -/
structure PyAlias where
  name : String
  asname : Option String
deriving DecidableEq, Repr

/-- `ast.Import` / `ast.ImportFrom`.  `level` is the number of leading dots
of an `ImportFrom` (0 for an absolute one), `module` its dotted module text
(`None` for `from . import x`).  `src` is the `ast.unparse` rendering. -/
inductive ImportStmt where
  | imp (names : List PyAlias) (src : String)
  | impFrom (level : Nat) (module : Option String) (names : List PyAlias) (src : String)
deriving DecidableEq, Repr

/-- The `names` attribute shared by both import forms. -/
def ImportStmt.names : ImportStmt → List PyAlias
  | .imp ns _ => ns
  | .impFrom _ _ ns _ => ns

/-- The `ast.unparse` rendering of the statement. -/
def ImportStmt.src : ImportStmt → String
  | .imp _ s => s
  | .impFrom _ _ _ s => s

/-- `ast.FunctionDef` (name plus rendered source text). -/
structure FuncDecl where
  name : String
  src : String
deriving DecidableEq, Repr

/-- `ast.ClassDef` (name plus rendered source text). -/
structure ClassDecl where
  name : String
  src : String
deriving DecidableEq, Repr

/-- A target of an `ast.Assign`: only `ast.Name` carries an `.id`
attribute; the other target shapes make `targets[0].id` raise. -/
inductive AssignTarget where
  | nameT (id : String)
  | tupleT
  | attributeT
  | subscriptT
deriving DecidableEq, Repr

/-- `ast.Assign` (top-level variable statement). -/
structure AssignDecl where
  targets : List AssignTarget
  src : String
deriving DecidableEq, Repr

/-- A top-level statement of a parsed file, as the extractor's
`isinstance` chain distinguishes them.  `annAssign` is `ast.AnnAssign`,
`asyncFuncDef` is `ast.AsyncFunctionDef` (not a subclass of
`ast.FunctionDef`), `exprStmt` is `ast.Expr`, `otherStmt` covers the
remaining compound statements (`if`/`for`/`while`/`try`/`with`...). -/
inductive Stmt where
  | importS (s : ImportStmt)
  | funcDef (f : FuncDecl)
  | asyncFuncDef (f : FuncDecl)
  | assign (a : AssignDecl)
  | annAssign (a : AssignDecl)
  | classDef (c : ClassDecl)
  | exprStmt (src : String)
  | otherStmt (src : String)
deriving DecidableEq, Repr

/-- `PythonFileObjects` (src/_scheme.py): the four declaration buckets. -/
structure PythonFileObjects where
  import_ : List ImportStmt
  function_ : List FuncDecl
  variable_ : List AssignDecl
  class_ : List ClassDecl
deriving DecidableEq, Repr

/-- The empty buckets (`FileObjects` default). -/
def emptyObjects : PythonFileObjects := ⟨[], [], [], []⟩

/-- The declaration payload stored in an Object Table triplet.  `empty`
models the `''` placeholder of the sentinel entry `['import', '', '']`
(always filtered out before being observed). -/
inductive Decl where
  | imp (s : ImportStmt)
  | func (f : FuncDecl)
  | varD (a : AssignDecl)
  | cls (c : ClassDecl)
  | empty
deriving DecidableEq, Repr

/-- One Object Table triplet `[kind, name, ast_object]`. -/
structure Entry where
  tag : String
  name : String
  decl : Decl
deriving DecidableEq, Repr

/-- The Object Table: absolute file path (as string in the source; as
segment list here, which renders injectively) to the file's triplets. -/
abbrev Table := List (PyPath × List Entry)

/-- `RepoIndexNode` (src/_scheme.py): a file or directory node. -/
inductive RepoIndexNode where
  | mk (name : String) (path : PyPath) (is_file : Bool)
       (has_link_relative_imports : Bool) (has_join_code_snippets : Bool)
       (children : List RepoIndexNode)
       (objects : PythonFileObjects)
       (relative_imports : List Entry)
       (snippet : List String)

def RepoIndexNode.name : RepoIndexNode → String
  | .mk n _ _ _ _ _ _ _ _ => n

def RepoIndexNode.path : RepoIndexNode → PyPath
  | .mk _ p _ _ _ _ _ _ _ => p

def RepoIndexNode.is_file : RepoIndexNode → Bool
  | .mk _ _ f _ _ _ _ _ _ => f

def RepoIndexNode.has_link_relative_imports : RepoIndexNode → Bool
  | .mk _ _ _ hl _ _ _ _ _ => hl

def RepoIndexNode.has_join_code_snippets : RepoIndexNode → Bool
  | .mk _ _ _ _ hj _ _ _ _ => hj

def RepoIndexNode.children : RepoIndexNode → List RepoIndexNode
  | .mk _ _ _ _ _ ch _ _ _ => ch

def RepoIndexNode.objects : RepoIndexNode → PythonFileObjects
  | .mk _ _ _ _ _ _ obj _ _ => obj

def RepoIndexNode.relative_imports : RepoIndexNode → List Entry
  | .mk _ _ _ _ _ _ _ ri _ => ri

def RepoIndexNode.snippet : RepoIndexNode → List String
  | .mk _ _ _ _ _ _ _ _ sn => sn

/-- `node.objects = objs` (the extractor's single mutation of a node). -/
def RepoIndexNode.withObjects : RepoIndexNode → PythonFileObjects → RepoIndexNode
  | .mk n p f hl hj ch _ ri sn, objs => .mk n p f hl hj ch objs ri sn

/-! ### Declaration Extractor (src/parser/python/extract_nodes.py,
src/parser/python/_parser_utils.py) -/

/-- The parsed repository contents: absolute path to the parse outcome of
the file found there.  `none` as the value models a file whose text
`ast.parse` rejects; an absent key models a missing file.  (The dynamic
standard-library / common-package probes of `_not_stdlib_module` and
`_not_common_ds_pkg_module` depend on the runtime import machinery and are
passed in as oracle predicates `nstd` / `ncds` below.) -/
abbrev FSMap := List (PyPath × Option (List Stmt))

/-- `_load_and_check_file`: existence check, `.py` extension check, then the
parse (any parse exception is re-raised as
`ValueError("File is not compilable. with error ...")`; we keep the constant
prefix of that message). -/
def _load_and_check_file (fs : FSMap) (p : PyPath) : Except String (List Stmt) :=
  match alistLookup fs p with
  | none => .error "File does not exist."
  | some parsed =>
    if !(pathEndsWithPy p) then .error "File is not a python file."
    else
      match parsed with
      | none => .error "File is not compilable."
      | some body => .ok body

/-- The bucketing loop of `_extract_file_modules`: one pass over
`tree.body`, appending each statement to the bucket its `isinstance` test
selects, ignoring every other statement kind. -/
def extractLoop :
    List Stmt → List ImportStmt × List FuncDecl × List AssignDecl × List ClassDecl →
    List ImportStmt × List FuncDecl × List AssignDecl × List ClassDecl
  | [], acc => acc
  | s :: rest, (i, f, v, c) =>
    match s with
    | .importS im => extractLoop rest (i ++ [im], f, v, c)
    | .funcDef fd => extractLoop rest (i, f ++ [fd], v, c)
    | .assign ad => extractLoop rest (i, f, v ++ [ad], c)
    | .classDef cd => extractLoop rest (i, f, v, c ++ [cd])
    | _ => extractLoop rest (i, f, v, c)

/-- The pure part of `_extract_file_modules` applied to a parsed body:
bucket the statements, then filter the import bucket through
`_not_stdlib_module` and `_not_common_ds_pkg_module` (the oracles). -/
def extractFileModulesBody (nstd ncds : ImportStmt → Bool) (body : List Stmt) :
    PythonFileObjects :=
  match extractLoop body ([], [], [], []) with
  | (i, f, v, c) => ⟨(i.filter nstd).filter ncds, f, v, c⟩

/-- `_extract_file_modules`: load/parse the file, then bucket.  The parse
failure raised by `_load_and_check_file` is NOT caught here. -/
def _extract_file_modules (fs : FSMap) (nstd ncds : ImportStmt → Bool)
    (p : PyPath) : Except String PythonFileObjects :=
  match _load_and_check_file fs p with
  | .error e => .error e
  | .ok body => .ok (extractFileModulesBody nstd ncds body)

/-- `extract_node_objects`: on a file node, replace its `objects`. -/
def extract_node_objects (fs : FSMap) (nstd ncds : ImportStmt → Bool)
    (node : RepoIndexNode) : Except String RepoIndexNode :=
  if node.is_file then
    match _extract_file_modules fs nstd ncds node.path with
    | .error e => .error e
    | .ok objs => .ok (node.withObjects objs)
  else .ok node

mutual
/-- `traverse_index_node(tree, extract_node_objects)`: apply the extractor
to the node, then to the children in order; an exception propagates and
aborts the whole traversal. -/
def extractTree (fs : FSMap) (nstd ncds : ImportStmt → Bool) :
    RepoIndexNode → Except String RepoIndexNode
  | .mk n p f hl hj ch obj ri sn =>
    match extract_node_objects fs nstd ncds (.mk n p f hl hj ch obj ri sn) with
    | .error e => .error e
    | .ok node' =>
      match extractForest fs nstd ncds ch with
      | .error e => .error e
      | .ok ch' =>
        .ok (.mk node'.name node'.path node'.is_file node'.has_link_relative_imports
              node'.has_join_code_snippets ch' node'.objects node'.relative_imports
              node'.snippet)
termination_by structural t => t

/-- The child loop of the traversal. -/
def extractForest (fs : FSMap) (nstd ncds : ImportStmt → Bool) :
    List RepoIndexNode → Except String (List RepoIndexNode)
  | [] => .ok []
  | c :: cs =>
    match extractTree fs nstd ncds c with
    | .error e => .error e
    | .ok c' =>
      match extractForest fs nstd ncds cs with
      | .error e => .error e
      | .ok cs' => .ok (c' :: cs')
termination_by structural l => l
end

/-! ### Object Table builder (src/parser/python/build_object_table.py,
src/index_tree/python/index_tree_builder.py) -/

/-- Run a fallible function over a list, stopping at the first exception —
the behaviour of the sequential Python `for` loops below. -/
def mapME (f : α → Except String β) : List α → Except String (List β)
  | [] => .ok []
  | a :: t =>
    match f a with
    | .error e => .error e
    | .ok b =>
      match mapME f t with
      | .error e => .error e
      | .ok bs => .ok (b :: bs)

/-- `import_.names[0].name` (raises `IndexError` on an empty name list,
which `ast` never produces). -/
def firstImportName (s : ImportStmt) : Except String String :=
  match s.names.head? with
  | none => .error "IndexError: list index out of range"
  | some a => .ok a.name

/-- `variable_.targets[0].id`: only an `ast.Name` target has `.id`; every
other target shape raises `AttributeError`. -/
def assignFirstTargetId (a : AssignDecl) : Except String String :=
  match a.targets.head? with
  | none => .error "IndexError: list index out of range"
  | some (.nameT id) => .ok id
  | some _ => .error "AttributeError: object has no attribute id"

/-- `file_objects_2_list`: flatten the four buckets, in bucket order, into
`[kind, name, object]` triplets. -/
def file_objects_2_list (obj : PythonFileObjects) : Except String (List Entry) :=
  match mapME (fun i => (firstImportName i).map (fun nm => Entry.mk "import" nm (.imp i)))
      obj.import_ with
  | .error e => .error e
  | .ok imps =>
    let funcs := obj.function_.map (fun f => Entry.mk "function" f.name (.func f))
    match mapME (fun v => (assignFirstTargetId v).map (fun nm => Entry.mk "variable" nm (.varD v)))
        obj.variable_ with
    | .error e => .error e
    | .ok vars =>
      let clss := obj.class_.map (fun c => Entry.mk "class" c.name (.cls c))
      .ok (imps ++ funcs ++ vars ++ clss)

mutual
/-- `_update_node_items`: depth-first, for each file node store its
flattened triplets under its path; directory nodes contribute nothing. -/
def _update_node_items (acc : Table) : RepoIndexNode → Except String Table
  | .mk _ p isf _ _ ch obj _ _ =>
    match (if isf then (file_objects_2_list obj).map (fun l => alistInsert acc p l)
           else .ok acc) with
    | .error e => .error e
    | .ok acc' => updateForestItems acc' ch
termination_by structural t => t

/-- The child loop of `_update_node_items`. -/
def updateForestItems (acc : Table) : List RepoIndexNode → Except String Table
  | [] => .ok acc
  | c :: cs =>
    match _update_node_items acc c with
    | .error e => .error e
    | .ok acc' => updateForestItems acc' cs
termination_by structural l => l
end

/-- `build_object_table`: table built from the whole tree, starting empty. -/
def build_object_table (t : RepoIndexNode) : Except String Table :=
  _update_node_items [] t

/-- The `extract_node_objects` stage followed by the `build_object_table`
stage of `parse_repo`. -/
def extractThenBuildTable (fs : FSMap) (nstd ncds : ImportStmt → Bool)
    (t : RepoIndexNode) : Except String Table :=
  match extractTree fs nstd ncds t with
  | .error e => .error e
  | .ok t' => build_object_table t'

/-! ### Relative Import Resolver (src/parser/python/update_relative_imports.py,
src/parser/python/_trace_import.py) -/

/-- `_count_leading_dots`: `re.match(r"(import|from)\s+(\.+)", s)` — the
keyword must start the string, be followed by at least one whitespace
character and then at least one dot; otherwise 0.  (As in
`stripImportAlias`, the forced-maximal runs make the greedy scan exact.) -/
def _count_leading_dots (s : String) : Nat :=
  let cs := s.data
  let rest :=
    if ("import".data).isPrefixOf cs then some (cs.drop 6)
    else if ("from".data).isPrefixOf cs then some (cs.drop 4)
    else none
  match rest with
  | none => 0
  | some r =>
    let sp := r.takeWhile Char.isWhitespace
    if sp.isEmpty then 0
    else ((r.drop sp.length).takeWhile (fun c => c == '.')).length

/-- `_parse_import_module`: the `module` attribute of an `ImportFrom`
(possibly `None`), or the dot-joined names of an `Import`. -/
def _parse_import_module : ImportStmt → Option String
  | .impFrom _ m _ _ => m
  | .imp names _ => some (joinDotted (names.map (fun a => a.name)))

/-- Step 3 of `_import_relative_folder_modules` (lines 50-57): collect the
stripped imported names and detect a `*` wildcard. -/
def cleanFunctions (names : List PyAlias) : List String × Bool :=
  names.foldl
    (fun acc a => (acc.1 ++ [stripImportAlias a.name], acc.2 || (a.name == "*")))
    ([], false)

/-- The lookup-and-filter applied to one candidate path (lines 61-65 and
67-72 of update_relative_imports.py, which are verbatim copies of each
other): fetch the file's triplets (defaulting to the sentinel
`[['import', '', '']]`), drop entries whose kind tag is a substring of
`'import'` (`x[0] not in 'import'`), and for a non-wildcard statement keep
only requested names. -/
def lookupFilter (tb : Table) (p : PyPath) (importAll : Bool)
    (functionsStr : List String) : List Entry :=
  let tfm := (alistLookup tb p).getD [⟨"import", "", .empty⟩]
  let tfm2 := tfm.filter (fun x => !(containsSub ("import".data) x.tag.data))
  if !importAll then tfm2.filter (fun x => functionsStr.contains x.name) else tfm2

/-- The body of the per-statement loop of `_import_relative_folder_modules`
(lines 34-73).  Returns the updated `root_path` — the source reassigns the
`root_path` variable while climbing/descending, and that value persists into
the next loop iteration, whereas `cur_absolute_path` is recomputed from
`node.path` each iteration.  The second component is `none` when the
statement is skipped (`continue` on an empty module path). -/
def processStmt (tb : Table) (nodePath : PyPath) (rootPath : PyPath)
    (s : ImportStmt) : PyPath × Option (List Entry) :=
  let dots := _count_leading_dots s.src
  match _parse_import_module s with
  | none => (rootPath, none)
  | some m =>
    if m = "" then (rootPath, none)
    else
      let curAbs := pyParent nodePath
      let rp1 := climbParents dots rootPath
      let cur1 := climbParents dots curAbs
      let segs := pySplitDot m
      let rp2 := segs.foldl pyJoin rp1
      let cur2 := segs.foldl pyJoin cur1
      let fsIa := cleanFunctions s.names
      let resA := lookupFilter tb (withSuffixPy rp2) fsIa.2 fsIa.1
      if resA.isEmpty then (rp2, some (lookupFilter tb (withSuffixPy cur2) fsIa.2 fsIa.1))
      else (rp2, some resA)

/-- Fold step over the statements of one node: thread the (mutated)
`root_path` and append each processed statement's resolution list. -/
def collectState (tb : Table) (nodePath : PyPath)
    (st : PyPath × List (List Entry)) (s : ImportStmt) : PyPath × List (List Entry) :=
  match processStmt tb nodePath st.1 s with
  | (rp', none) => (rp', st.2)
  | (rp', some r) => (rp', st.2 ++ [r])

/-- `_import_relative_folder_modules` (update_relative_imports.py): resolve
every import statement of the node; when at least one statement was
processed, overwrite `relative_imports` with the concatenation
(`reduce(lambda x, y: x + y, ...)`); always set the idempotency flag. -/
def _import_relative_folder_modules (tb : Table) (rootPath : PyPath) :
    RepoIndexNode → RepoIndexNode
  | .mk n p isf _ hj ch obj ri sn =>
    let relss := (obj.import_.foldl (collectState tb p) (rootPath, [])).2
    .mk n p isf true hj ch obj (if relss.isEmpty then ri else relss.flatten) sn

mutual
/-- `traverse_index_node(tree, _import_relative_folder_modules, ...)`:
apply the resolver to the node, then recurse into the children. -/
def resolveTree (tb : Table) (rp : PyPath) : RepoIndexNode → RepoIndexNode
  | .mk n p isf hl hj ch obj ri sn =>
    match _import_relative_folder_modules tb rp (.mk n p isf hl hj ch obj ri sn) with
    | .mk n' p' isf' hl' hj' _ obj' ri' sn' =>
      .mk n' p' isf' hl' hj' (resolveForest tb rp ch) obj' ri' sn'
termination_by structural t => t

/-- The child loop of the resolver traversal. -/
def resolveForest (tb : Table) (rp : PyPath) : List RepoIndexNode → List RepoIndexNode
  | [] => []
  | c :: cs => resolveTree tb rp c :: resolveForest tb rp cs
termination_by structural l => l
end

/-! ### Snippet Assembler (src/parser/python/_parser_utils.py,
src/parser/python/_trace_import.py) -/

/-- A member of the function/class pool of `_filter_class_and_functions`
(every member has a `name`, so the `hasattr(f, "name")` guard of
`_find_used_functions` is always true on it). -/
inductive PoolObj where
  | func (f : FuncDecl)
  | cls (c : ClassDecl)
deriving DecidableEq, Repr

def PoolObj.name : PoolObj → String
  | .func f => f.name
  | .cls c => c.name

/-- `ast.unparse` of a pool member (the rendering carried by the model). -/
def PoolObj.src : PoolObj → String
  | .func f => f.src
  | .cls c => c.src

/-- `_filter_class_and_functions`: the full function/class pool and its
public subset (name does not start with an underscore). -/
def _filter_class_and_functions (body : List Stmt) : List PoolObj × List PoolObj :=
  let pool := body.filterMap (fun st =>
    match st with
    | .funcDef f => some (PoolObj.func f)
    | .classDef c => some (PoolObj.cls c)
    | _ => none)
  (pool, pool.filter (fun o => !(o.name.data.headD ' ' == '_')))

/-- `_filter_imports`: the import statements of the body, filtered through
the standard-library and common-package oracles. -/
def _filter_imports (nstd ncds : ImportStmt → Bool) (body : List Stmt) :
    List ImportStmt :=
  (((body.filterMap (fun st => match st with | .importS s => some s | _ => none)).filter
      nstd).filter ncds)

/-- The `import_alias_dict` comprehension of `_generate_python_snippets`:
module name (when truthy) maps to `module ++ " " ++ unparse(stmt)`;
duplicate keys keep the first insertion position with the last value, as a
Python dict does. -/
def makeAliasDict (imps : List ImportStmt) : List (String × String) :=
  imps.foldl
    (fun d i =>
      match _parse_import_module i with
      | none => d
      | some m => if m = "" then d else alistInsert d m (m ++ " " ++ i.src))
    []

/-- Apply every alias substitution to a rendered declaration
(`node_str.replace(alias, alias_str)` in dict order). -/
def applyAliases (aliases : List (String × String)) (s : String) : String :=
  aliases.foldl (fun acc kv => pyReplace acc kv.1 kv.2) s

/-- The inner loop of `_find_used_functions` for one public object: a pool
member is "used" when its name occurs in the alias-substituted rendering
and differs from the target's own name. -/
def findUsedFor (pool : List PoolObj) (aliases : List (String × String))
    (node : PoolObj) : List PoolObj :=
  let nodeStr := applyAliases aliases node.src
  pool.filter (fun f => containsSub nodeStr.data f.name.data && f.name != node.name)

/-- `_find_used_functions`. -/
def _find_used_functions (pool : List PoolObj) (pubs : List PoolObj)
    (aliases : List (String × String)) : List (List PoolObj) :=
  pubs.map (findUsedFor pool aliases)

/-- `_join_code_snippets`: `unparse(used) + "\n\n" + unparse(target)` for
each (public object, used list) pair; `zip` truncates at the shorter list. -/
def _join_code_snippets (pubs : List PoolObj) (used : List (List PoolObj)) :
    List String :=
  (pubs.zip used).map (fun iu => joinLines (iu.2.map PoolObj.src) ++ "\n\n" ++ iu.1.src)

/-- The snippet-producing core of `_generate_python_snippets` on an already
parsed body.  `additionalObjects` stands for the declarations pulled in from
other files by `_import_relative_folder_modules` (_trace_import.py); they
are appended to the public list before `_find_used_functions`, and the final
`zip` truncates back to the local public objects. -/
def generatePythonSnippetsModel (nstd ncds : ImportStmt → Bool)
    (body : List Stmt) (additionalObjects : List PoolObj) : List String :=
  let imports := _filter_imports nstd ncds body
  let aliasDict := makeAliasDict imports
  let poolPublic := _filter_class_and_functions body
  let used := _find_used_functions poolPublic.1 (poolPublic.2 ++ additionalObjects) aliasDict
  _join_code_snippets poolPublic.2 used

/-! ### Repository Tree Builder (src/index_tree/python/index_tree_builder.py) -/

/-- A directory listing of the on-disk repository, in `iterdir` order. -/
inductive FSEntry where
  | dir (name : String) (entries : List FSEntry)
  | file (name : String)
deriving Repr

mutual
/-- `_build_python_index_tree`: the `iterdir` loop, appending the node (if
any) built for each entry. -/
def buildChildren (base : PyPath) : List FSEntry → List RepoIndexNode
  | [] => []
  | e :: rest =>
    match buildChildEntry base e with
    | none => buildChildren base rest
    | some c => c :: buildChildren base rest
termination_by structural l => l

/-- The per-entry body of `_build_python_index_tree`: skip entries whose
stem starts with `__`; recurse into directories unconditionally; attach a
file node only for the `.py` extension (`.ipynb` and everything else is
skipped, producing no node). -/
def buildChildEntry (base : PyPath) : FSEntry → Option RepoIndexNode
  | .dir nm sub =>
    if stemStartsDunder nm then none
    else some (.mk nm (base ++ [nm]) false false false
        (buildChildren (base ++ [nm]) sub) emptyObjects [] [])
  | .file nm =>
    if !(stemStartsDunder nm) && suffixOf nm == ".py" then
      some (.mk nm (base ++ [nm]) true false false [] emptyObjects [] [])
    else none
termination_by structural e => e
end

/-- `create_tree`: the root node (a directory named after the repository)
with the recursively built children.  (The `FileNotFoundError` existence
check is outside the model: the listing is given.) -/
def create_tree (repoName : String) (repoPath : PyPath) (entries : List FSEntry) :
    RepoIndexNode :=
  .mk repoName repoPath false false false (buildChildren repoPath entries)
    emptyObjects [] []

/-! ### The structural invariant of claim C8 -/

/-- All four declaration buckets are empty. -/
def emptyObjectsB (o : PythonFileObjects) : Bool :=
  o.import_.isEmpty && o.function_.isEmpty && o.variable_.isEmpty && o.class_.isEmpty

mutual
/-- The tree invariant: a file node has no children; a directory node has
empty declaration buckets and an empty `relative_imports` sequence. -/
def invB : RepoIndexNode → Bool
  | .mk _ _ isf _ _ ch obj ri _ =>
    (if isf then ch.isEmpty else emptyObjectsB obj && ri.isEmpty) && invForest ch
termination_by structural t => t

/-- The invariant on a list of sibling nodes. -/
def invForest : List RepoIndexNode → Bool
  | [] => true
  | c :: cs => invB c && invForest cs
termination_by structural l => l
end

/-! ### Concrete scenarios -/

/-- A repository with one unparseable file and one valid sibling. -/
def c1fs : FSMap :=
  [ (["root", "bad.py"], none),
    (["root", "good.py"], some [Stmt.funcDef ⟨"f", "def f():\n    pass"⟩]) ]

/-- The tree built for that repository. -/
def c1tree : RepoIndexNode :=
  create_tree "root" ["root"] [FSEntry.file "bad.py", FSEntry.file "good.py"]

/-- `from pkg.sub import x` — the first statement of the C2 file. -/
def c2s1 : ImportStmt := .impFrom 0 (some "pkg.sub") [⟨"x", none⟩] "from pkg.sub import x"

/-- `from mod import y` — the second statement of the C2 file. -/
def c2s2 : ImportStmt := .impFrom 0 (some "mod") [⟨"y", none⟩] "from mod import y"

/-- The declaration of `y` in `root/mod.py`. -/
def c2yEntry : Entry := ⟨"function", "y", .func ⟨"y", "def y():\n    pass"⟩⟩

/-- Object Table holding only `root/mod.py`. -/
def c2table : Table := [(["root", "mod.py"], [c2yEntry])]

/-- The file `root/pkg2/a.py` containing the two statements above. -/
def c2node : RepoIndexNode :=
  .mk "a.py" ["root", "pkg2", "a.py"] true false false [] ⟨[c2s1, c2s2], [], [], []⟩ [] []

/-- `from . import helper` (an `ast.ImportFrom` with `module = None`). -/
def c3stmt : ImportStmt := .impFrom 1 none [⟨"helper", none⟩] "from . import helper"

/-- The declaration of `helper_fn`. -/
def c3helperEntry : Entry :=
  ⟨"function", "helper_fn", .func ⟨"helper_fn", "def helper_fn():\n    pass"⟩⟩

/-- The file `root/pkg/a.py` containing only `from . import helper`. -/
def c3node : RepoIndexNode :=
  .mk "a.py" ["root", "pkg", "a.py"] true false false [] ⟨[c3stmt], [], [], []⟩ [] []

/-- `import x_ as y` — the import whose alias substitution destroys the
occurrence of `_h` in C5's scenario. -/
def c5imp : ImportStmt := .imp [⟨"x_", some "y"⟩] "import x_ as y"

/-- The private local helper `_h`. -/
def c5h : PoolObj := .func ⟨"_h", "def _h():\n    pass"⟩

/-- The public function `g`, whose source mentions the identifier `x_h`
(which contains the literal name `_h`). -/
def c5g : PoolObj := .func ⟨"g", "def g():\n    return x_h(1)"⟩

/-- The C5 file: the import, the private `_h`, the public `g`. -/
def c5body : List Stmt :=
  [Stmt.importS c5imp, Stmt.funcDef ⟨"_h", "def _h():\n    pass"⟩,
   Stmt.funcDef ⟨"g", "def g():\n    return x_h(1)"⟩]

/-! ### Claim theorems (closed evaluations) -/

/-- C1: In a repository with an unparseable file `root/bad.py` and a valid
sibling `root/good.py`, the extraction stage does NOT catch the parse
failure per-file: `_load_and_check_file` raises
`ValueError("File is not compilable...")`, nothing along
`_extract_file_modules` / `extract_node_objects` / `traverse_index_node`
catches it, so the run aborts before any Object Table is built and the
valid sibling never receives a table entry — contradicting the claim that
the failure is isolated to the single file. -/
theorem c1_parse_failure_aborts_run :
    extractThenBuildTable c1fs (fun _ => true) (fun _ => true) c1tree =
      Except.error "File is not compilable." := by
  rfl

/-- C2: candidate path (A) is NOT a function of the repository root and the
statement alone.  In `root/pkg2/a.py` with statements
`from pkg.sub import x` then `from mod import y`, and an Object Table
containing `root/mod.py` with function `y`: processing `from mod import y`
alone from the configured root resolves `y` (second conjunct), but in the
file's statement loop the `root_path` variable still holds the value
`root/pkg/sub` left over from the first statement, so the second
statement's candidate (A) becomes `root/pkg/sub/mod.py` and the file
resolves nothing (first conjunct). -/
theorem c2_candidateA_depends_on_earlier_statements :
    (_import_relative_folder_modules c2table ["root"] c2node).relative_imports = []
    ∧ (processStmt c2table ["root", "pkg2", "a.py"] ["root"] c2s2).2 =
        some [c2yEntry] := by
  constructor
  · rfl
  · rfl

/-- C3 counterexample: for `root/pkg/a.py` containing `from . import
helper`, the resolver returns no declaration at all — neither when the
Object Table holds the sibling `root/pkg/helper.py` nor when it holds
`root/helper.py` — because `_parse_import_module` yields `None` for an
`ImportFrom` without a module and the statement is skipped (`continue`).
The claim's asserted resolution of `helper_fn` is therefore false. -/
theorem c3_from_dot_import_resolves_nothing :
    ¬ c3helperEntry ∈
        (_import_relative_folder_modules [(["root", "pkg", "helper.py"], [c3helperEntry])]
          ["root"] c3node).relative_imports
    ∧ ¬ c3helperEntry ∈
        (_import_relative_folder_modules [(["root", "helper.py"], [c3helperEntry])]
          ["root"] c3node).relative_imports := by
  constructor
  · intro h
    have he : (_import_relative_folder_modules
        [(["root", "pkg", "helper.py"], [c3helperEntry])] ["root"] c3node).relative_imports
        = [] := rfl
    rw [he] at h
    exact List.not_mem_nil _ h
  · intro h
    have he : (_import_relative_folder_modules
        [(["root", "helper.py"], [c3helperEntry])] ["root"] c3node).relative_imports
        = [] := rfl
    rw [he] at h
    exact List.not_mem_nil _ h

/-- C5 counterexample: `g` is public, `_h` is a private local function, and
`g`'s source text contains the literal name `_h` (inside the identifier
`x_h`).  Yet with the import `import x_ as y` in the same file, the alias
substitution `node_str.replace("x_", "x_ import x_ as y")` splits that
occurrence apart, `_h` is not classified as used, and no produced snippet
contains `_h`'s source text at all — refuting the claim as stated. -/
theorem c5_alias_substitution_breaks_containment :
    strContains c5g.src c5h.name = true
    ∧ (generatePythonSnippetsModel (fun _ => true) (fun _ => true) c5body []).all
        (fun s => !(strContains s c5h.src)) = true := by
  constructor
  · rfl
  · rfl

/-! ### General lemmas -/

theorem strData_append (a b : String) : (a ++ b).data = a.data ++ b.data := by
  cases a
  cases b
  rfl

theorem containsSub_iff [BEq α] [LawfulBEq α] (l sub : List α) :
    containsSub l sub = true ↔ sub <:+: l := by
  induction l with
  | nil =>
    simp [containsSub, List.isEmpty_iff]
  | cons c t ih =>
    simp [containsSub, List.isPrefixOf_iff_prefix, ih, List.infix_cons_iff]

theorem containsSub_self [BEq α] [LawfulBEq α] (l : List α) : containsSub l l = true :=
  (containsSub_iff l l).mpr (List.infix_refl l)

theorem strContains_joinLines (l : List String) (x : String) (hx : x ∈ l) :
    strContains (joinLines l) x = true := by
  induction l with
  | nil => cases hx
  | cons s rest ih =>
    cases rest with
    | nil =>
      have hxs : x = s := by simpa using hx
      subst hxs
      simp only [joinLines, strContains]
      exact containsSub_self _
    | cons s2 r2 =>
      rw [show joinLines (s :: s2 :: r2) = s ++ "\n" ++ joinLines (s2 :: r2) from rfl]
      simp only [strContains, containsSub_iff, strData_append]
      rcases List.mem_cons.mp hx with hxs | hx2
      · subst hxs
        exact ⟨[], "\n".data ++ (joinLines (s2 :: r2)).data, by simp⟩
      · have := ih hx2
        simp only [strContains, containsSub_iff] at this
        exact this.trans ⟨s.data ++ "\n".data, [], by simp⟩

theorem mapME_ok_length (f : α → Except String β) :
    ∀ (l : List α) (res : List β), mapME f l = .ok res → res.length = l.length := by
  intro l
  induction l with
  | nil =>
    intro res h
    simp only [mapME] at h
    cases h
    rfl
  | cons a t ih =>
    intro res h
    simp only [mapME] at h
    cases hfa : f a with
    | error e => rw [hfa] at h; cases h
    | ok b =>
      rw [hfa] at h
      cases ht : mapME f t with
      | error e => rw [ht] at h; cases h
      | ok bs =>
        rw [ht] at h
        cases h
        simp [ih bs ht]

theorem mapME_ok_forall (f : α → Except String β) :
    ∀ (l : List α) (res : List β), mapME f l = .ok res →
      ∀ x ∈ l, ∃ b, f x = .ok b := by
  intro l
  induction l with
  | nil => intro res _ x hx; cases hx
  | cons a t ih =>
    intro res h x hx
    simp only [mapME] at h
    cases hfa : f a with
    | error e => rw [hfa] at h; cases h
    | ok b =>
      rw [hfa] at h
      cases ht : mapME f t with
      | error e => rw [ht] at h; cases h
      | ok bs =>
        rcases List.mem_cons.mp hx with hxa | hxt
        · subst hxa; exact ⟨b, hfa⟩
        · exact ih bs ht x hxt

theorem mapME_error_of_mem (f : α → Except String β) :
    ∀ (l : List α) (x : α), x ∈ l → (∀ b, f x ≠ .ok b) →
      ∃ e, mapME f l = .error e := by
  intro l
  induction l with
  | nil => intro x hx; cases hx
  | cons a t ih =>
    intro x hx hbad
    rcases List.mem_cons.mp hx with hxa | hxt
    · subst hxa
      cases hfa : f x with
      | error e => exact ⟨e, by simp [mapME, hfa]⟩
      | ok b => exact absurd hfa (hbad b)
    · cases hfa : f a with
      | error e => exact ⟨e, by simp [mapME, hfa]⟩
      | ok b =>
        rcases ih x hxt hbad with ⟨e, he⟩
        exact ⟨e, by simp [mapME, hfa, he]⟩

theorem alistLookup_insert [DecidableEq κ] (d : List (κ × ν)) (k : κ) (v : ν) :
    alistLookup (alistInsert d k v) k = some v := by
  induction d with
  | nil => simp [alistInsert, alistLookup]
  | cons kv rest ih =>
    by_cases hk : kv.1 = k <;> simp [alistInsert, alistLookup, hk, ih]

theorem extractLoop_spec (body : List Stmt) :
    ∀ i f v c, extractLoop body (i, f, v, c) =
      (i ++ body.filterMap (fun st => match st with | .importS s => some s | _ => none),
       f ++ body.filterMap (fun st => match st with | .funcDef x => some x | _ => none),
       v ++ body.filterMap (fun st => match st with | .assign x => some x | _ => none),
       c ++ body.filterMap (fun st => match st with | .classDef x => some x | _ => none)) := by
  induction body with
  | nil => intro i f v c; simp [extractLoop]
  | cons s rest ih =>
    intro i f v c
    cases s <;> simp [extractLoop, ih, List.filterMap_cons]

theorem cleanFunctions_fst (names : List PyAlias) :
    (cleanFunctions names).1 = names.map (fun a => stripImportAlias a.name) := by
  have gen : ∀ (ns : List PyAlias) (acc : List String) (b : Bool),
      (ns.foldl
        (fun acc a => (acc.1 ++ [stripImportAlias a.name], acc.2 || (a.name == "*")))
        (acc, b)).1
        = acc ++ ns.map (fun a => stripImportAlias a.name) := by
    intro ns
    induction ns with
    | nil => intro acc b; simp
    | cons a t ih => intro acc b; simp [List.foldl_cons, ih]
  simpa [cleanFunctions] using gen names [] false

/-- The first assignment target of a variable statement is a plain
`ast.Name`. -/
def firstTargetIsName (a : AssignDecl) : Bool :=
  match a.targets.head? with
  | some (.nameT _) => true
  | _ => false

theorem assignFirstTargetId_ok_iff (v : AssignDecl) :
    (∃ b, assignFirstTargetId v = .ok b) ↔ firstTargetIsName v = true := by
  cases hv : v.targets.head? with
  | none => simp [assignFirstTargetId, firstTargetIsName, hv]
  | some t => cases t <;> simp [assignFirstTargetId, firstTargetIsName, hv]

/-! ### Claim theorems (general) -/

/-- C10: The extractor buckets exactly the top-level plain imports,
from-imports, non-async function definitions, plain assignments and class
definitions, in source order and with the import bucket additionally
filtered through the standard-library and common-package oracles; a
statement of any other kind (annotated assignment, async function
definition, expression statement, compound statement) contributes to no
bucket — prepending one to a body leaves the extraction unchanged. -/
theorem c10_extractor_buckets (nstd ncds : ImportStmt → Bool) (body : List Stmt) :
    extractFileModulesBody nstd ncds body =
      ⟨((body.filterMap (fun st => match st with | .importS s => some s | _ => none)).filter
          nstd).filter ncds,
       body.filterMap (fun st => match st with | .funcDef x => some x | _ => none),
       body.filterMap (fun st => match st with | .assign x => some x | _ => none),
       body.filterMap (fun st => match st with | .classDef x => some x | _ => none)⟩
    ∧ (∀ a rest, extractFileModulesBody nstd ncds (Stmt.annAssign a :: rest) =
        extractFileModulesBody nstd ncds rest)
    ∧ (∀ fd rest, extractFileModulesBody nstd ncds (Stmt.asyncFuncDef fd :: rest) =
        extractFileModulesBody nstd ncds rest)
    ∧ (∀ sr rest, extractFileModulesBody nstd ncds (Stmt.exprStmt sr :: rest) =
        extractFileModulesBody nstd ncds rest)
    ∧ (∀ sr rest, extractFileModulesBody nstd ncds (Stmt.otherStmt sr :: rest) =
        extractFileModulesBody nstd ncds rest) := by
  refine ⟨?_, fun a rest => rfl, fun fd rest => rfl, fun sr rest => rfl, fun sr rest => rfl⟩
  simp [extractFileModulesBody, extractLoop_spec]

/-- C7: Whenever `file_objects_2_list` succeeds on a file's buckets, the
produced Object Table entry has exactly one triplet per bucketed
declaration — its length is the sum of the four bucket sizes — and storing
it under the file's path makes the table yield exactly that list for the
path. -/
theorem c7_table_entry_length (obj : PythonFileObjects) (l : List Entry)
    (h : file_objects_2_list obj = .ok l) :
    l.length = obj.import_.length + obj.function_.length + obj.variable_.length +
        obj.class_.length
    ∧ ∀ (acc : Table) (p : PyPath), alistLookup (alistInsert acc p l) p = some l := by
  refine ⟨?_, fun acc p => alistLookup_insert acc p l⟩
  unfold file_objects_2_list at h
  cases hi : mapME (fun i => (firstImportName i).map
      (fun nm => Entry.mk "import" nm (.imp i))) obj.import_ with
  | error e => rw [hi] at h; cases h
  | ok imps =>
    rw [hi] at h
    cases hv : mapME (fun v => (assignFirstTargetId v).map
        (fun nm => Entry.mk "variable" nm (.varD v))) obj.variable_ with
    | error e => rw [hv] at h; cases h
    | ok vars =>
      rw [hv] at h
      cases h
      have h1 := mapME_ok_length _ _ _ hi
      have h2 := mapME_ok_length _ _ _ hv
      simp [h1, h2]
      omega

/-- C9: Flattening a file's declarations into Object Table triplets is
defined only when every top-level variable declaration's first assignment
target is a plain name: a successful flattening forces every first target
to be a name, and a file containing one variable whose first target is not
a name makes `file_objects_2_list` raise (`.id` missing), so
`build_object_table` on that file's node raises instead of producing an
entry. -/
theorem c9_flatten_requires_name_targets (obj : PythonFileObjects) :
    (∀ l, file_objects_2_list obj = .ok l → ∀ v ∈ obj.variable_, firstTargetIsName v = true)
    ∧ ((∃ v ∈ obj.variable_, firstTargetIsName v = false) →
        (∃ e, file_objects_2_list obj = .error e)
        ∧ ∀ nm p hl hj ch ri sn,
            ∃ e, build_object_table (.mk nm p true hl hj ch obj ri sn) = .error e) := by
  constructor
  · intro l h v hv
    unfold file_objects_2_list at h
    cases hi : mapME (fun i => (firstImportName i).map
        (fun nm => Entry.mk "import" nm (.imp i))) obj.import_ with
    | error e => rw [hi] at h; cases h
    | ok imps =>
      rw [hi] at h
      cases hvv : mapME (fun v => (assignFirstTargetId v).map
          (fun nm => Entry.mk "variable" nm (.varD v))) obj.variable_ with
      | error e => rw [hvv] at h; cases h
      | ok vars =>
        rcases mapME_ok_forall _ _ _ hvv v hv with ⟨b, hb⟩
        cases ht : assignFirstTargetId v with
        | error e => rw [ht] at hb; cases hb
        | ok nmv => exact (assignFirstTargetId_ok_iff v).mp ⟨nmv, ht⟩
  · rintro ⟨v, hv, hbad⟩
    have hvarsErr : ∃ e, mapME (fun v => (assignFirstTargetId v).map
        (fun nm => Entry.mk "variable" nm (.varD v))) obj.variable_ = .error e := by
      apply mapME_error_of_mem _ _ v hv
      intro b hb
      cases ht : assignFirstTargetId v with
      | error e => rw [ht] at hb; cases hb
      | ok nmv =>
        have : firstTargetIsName v = true := (assignFirstTargetId_ok_iff v).mp ⟨nmv, ht⟩
        rw [hbad] at this
        cases this
    have hflat : ∃ e, file_objects_2_list obj = .error e := by
      unfold file_objects_2_list
      cases hi : mapME (fun i => (firstImportName i).map
          (fun nm => Entry.mk "import" nm (.imp i))) obj.import_ with
      | error e => exact ⟨e, rfl⟩
      | ok imps =>
        rcases hvarsErr with ⟨e, he⟩
        rw [he]
        exact ⟨e, rfl⟩
    refine ⟨hflat, fun nm p hl hj ch ri sn => ?_⟩
    rcases hflat with ⟨e, he⟩
    exact ⟨e, by simp [build_object_table, _update_node_items, he, Except.map]⟩

/-- C4: For an import statement whose candidate target file is present in
the Object Table, the lookup-and-filter step behaves as claimed: a wildcard
statement yields exactly the target's entries whose kind tag survives the
`x[0] not in 'import'` test (all non-import declarations, nothing else
dropped); a non-wildcard statement yields only entries of the target that
are not tagged `import` and whose declared name equals some requested
imported name after `strip_import_alias` normalization of `"X as Y"`. -/
theorem c4_wildcard_and_named_filtering (tb : Table) (p : PyPath) (es : List Entry)
    (s : ImportStmt) (h : alistLookup tb p = some es) :
    ((cleanFunctions s.names).2 = true →
      lookupFilter tb p (cleanFunctions s.names).2 (cleanFunctions s.names).1 =
        es.filter (fun x => !(containsSub ("import".data) x.tag.data)))
    ∧ ((cleanFunctions s.names).2 = false →
        ∀ e ∈ lookupFilter tb p (cleanFunctions s.names).2 (cleanFunctions s.names).1,
          e ∈ es ∧ e.tag ≠ "import" ∧ ∃ a ∈ s.names, stripImportAlias a.name = e.name) := by
  constructor
  · intro hw
    simp [lookupFilter, h, hw]
  · intro hw e he
    simp only [lookupFilter, h, hw, Option.getD_some, Bool.not_false, if_true] at he
    rw [List.mem_filter] at he
    obtain ⟨he1, he2⟩ := he
    rw [List.mem_filter] at he1
    obtain ⟨hes, hni⟩ := he1
    refine ⟨hes, ?_, ?_⟩
    · intro htag
      rw [htag] at hni
      rw [containsSub_self] at hni
      cases hni
    · have : e.name ∈ (cleanFunctions s.names).1 := List.elem_iff.mp he2
      rw [cleanFunctions_fst] at this
      rcases List.mem_map.mp this with ⟨a, ha, hae⟩
      exact ⟨a, ha, hae⟩

theorem foldl_collectState_skip (tb : Table) (np : PyPath) :
    ∀ (imps : List ImportStmt) (rp0 : PyPath) (acc : List (List Entry)),
      (∀ s ∈ imps, _parse_import_module s = none ∨ _parse_import_module s = some "") →
      (imps.foldl (collectState tb np) (rp0, acc)).2 = acc := by
  intro imps
  induction imps with
  | nil => intro rp0 acc _; rfl
  | cons s ss ih =>
    intro rp0 acc hall
    rcases hall s (List.mem_cons_self s ss) with hs | hs
    · rw [List.foldl_cons]
      rw [show collectState tb np (rp0, acc) s = (rp0, acc) by
        simp [collectState, processStmt, hs]]
      exact ih rp0 acc (fun x hx => hall x (List.mem_cons_of_mem _ hx))
    · rw [List.foldl_cons]
      rw [show collectState tb np (rp0, acc) s = (rp0, acc) by
        simp [collectState, processStmt, hs]]
      exact ih rp0 acc (fun x hx => hall x (List.mem_cons_of_mem _ hx))

/-- C3 (amended): a relative import statement whose module part is absent
or empty — in particular `from . import helper`, whose `ImportFrom` node
has `module = None` — is skipped by the resolver (`continue` on the falsy
`cleaned_path`), so a node all of whose import statements are of that shape
keeps its `resolved_imports` unchanged, whatever the Object Table and
repository root contain. -/
theorem c3_empty_module_statements_resolve_nothing (tb : Table) (rp : PyPath)
    (n : RepoIndexNode)
    (h : ∀ s ∈ n.objects.import_,
        _parse_import_module s = none ∨ _parse_import_module s = some "") :
    (_import_relative_folder_modules tb rp n).relative_imports = n.relative_imports := by
  cases n with
  | mk nm p isf hl hj ch obj ri sn =>
    have h' : ∀ s ∈ obj.import_,
        _parse_import_module s = none ∨ _parse_import_module s = some "" := by
      intro s hs
      exact h s (by simpa [RepoIndexNode.objects] using hs)
    simp only [_import_relative_folder_modules, RepoIndexNode.relative_imports]
    rw [foldl_collectState_skip tb p obj.import_ rp [] h']
    rfl

/-- C3 amended, witness: the concrete `root/pkg/a.py` with
`from . import helper` and the sibling table keeps its (empty)
`resolved_imports`. -/
theorem c3_empty_module_statements_resolve_nothing_witness :
    (_import_relative_folder_modules [(["root", "pkg", "helper.py"], [c3helperEntry])]
        ["root"] c3node).relative_imports = c3node.relative_imports :=
  c3_empty_module_statements_resolve_nothing _ _ _ (by
    intro s hs
    have : s = c3stmt := by
      simpa [c3node, RepoIndexNode.objects] using hs
    subst this
    left
    rfl)

theorem join_snippets_mem (pool : List PoolObj) (aliases : List (String × String))
    (additional : List PoolObj) :
    ∀ (pubs : List PoolObj) (g : PoolObj), g ∈ pubs →
      (joinLines ((findUsedFor pool aliases g).map PoolObj.src) ++ "\n\n" ++ g.src) ∈
        _join_code_snippets pubs (_find_used_functions pool (pubs ++ additional) aliases) := by
  intro pubs
  induction pubs with
  | nil => intro g hg; cases hg
  | cons p ps ih =>
    intro g hg
    rw [show _find_used_functions pool ((p :: ps) ++ additional) aliases =
        findUsedFor pool aliases p :: _find_used_functions pool (ps ++ additional) aliases
      from rfl]
    rw [show _join_code_snippets (p :: ps)
        (findUsedFor pool aliases p :: _find_used_functions pool (ps ++ additional) aliases) =
        (joinLines ((findUsedFor pool aliases p).map PoolObj.src) ++ "\n\n" ++ p.src)
          :: _join_code_snippets ps (_find_used_functions pool (ps ++ additional) aliases)
      from rfl]
    rcases List.mem_cons.mp hg with hgp | hgs
    · subst hgp
      exact List.mem_cons_self _ _
    · exact List.mem_cons_of_mem _ (ih g hgs)

/-- C5 (amended): for a public declaration `g` and another pool declaration
`_h` with a different name, if `_h`'s name occurs in the alias-substituted
rendering of `g`'s source text — which is the raw source text whenever the
file contributes no alias substitutions, and in general whenever the
substitutions leave an occurrence intact — then the assembled snippet for
`g` contains `_h`'s rendered source text positioned before `g`'s own
rendered source text. -/
theorem c5_snippet_contains_helper (pool pubs additional : List PoolObj)
    (aliases : List (String × String)) (g hD : PoolObj)
    (hg : g ∈ pubs) (hh : hD ∈ pool) (hne : hD.name ≠ g.name)
    (hocc : strContains (applyAliases aliases g.src) hD.name = true) :
    ∃ s ∈ _join_code_snippets pubs (_find_used_functions pool (pubs ++ additional) aliases),
      ∃ pre, s = pre ++ "\n\n" ++ g.src ∧ strContains pre hD.src = true := by
  refine ⟨_, join_snippets_mem pool aliases additional pubs g hg,
    joinLines ((findUsedFor pool aliases g).map PoolObj.src), rfl, ?_⟩
  apply strContains_joinLines
  apply List.mem_map_of_mem
  rw [findUsedFor, List.mem_filter]
  refine ⟨hh, ?_⟩
  rw [Bool.and_eq_true]
  exact ⟨hocc, bne_iff_ne.mpr hne⟩

/-- C5 amended, witness: with no imports (so no alias substitutions), a
public `g` whose text mentions `_h` gets a snippet with `_h`'s text before
its own. -/
theorem c5_snippet_contains_helper_witness :
    ∃ s ∈ _join_code_snippets [PoolObj.func ⟨"g", "def g():\n    return _h(1)"⟩]
        (_find_used_functions [c5h, PoolObj.func ⟨"g", "def g():\n    return _h(1)"⟩]
          ([PoolObj.func ⟨"g", "def g():\n    return _h(1)"⟩] ++ []) []),
      ∃ pre, s = pre ++ "\n\n" ++ (PoolObj.func ⟨"g", "def g():\n    return _h(1)"⟩).src
        ∧ strContains pre c5h.src = true :=
  c5_snippet_contains_helper [c5h, PoolObj.func ⟨"g", "def g():\n    return _h(1)"⟩]
    [PoolObj.func ⟨"g", "def g():\n    return _h(1)"⟩] [] []
    (PoolObj.func ⟨"g", "def g():\n    return _h(1)"⟩) c5h
    (List.mem_cons_self _ _) (List.mem_cons_self _ _)
    (by decide) (by rfl)

theorem resolveTree_mk (tb : Table) (rp : PyPath) (n : String) (p : PyPath)
    (isf hl hj : Bool) (ch : List RepoIndexNode) (obj : PythonFileObjects)
    (ri : List Entry) (sn : List String) :
    resolveTree tb rp (.mk n p isf hl hj ch obj ri sn) =
      .mk n p isf true hj (resolveForest tb rp ch) obj
        (if ((obj.import_.foldl (collectState tb p) (rp, [])).2).isEmpty then ri
         else ((obj.import_.foldl (collectState tb p) (rp, [])).2).flatten) sn := rfl

theorem resolveForest_idem_of (tb : Table) (rp : PyPath) (cs : List RepoIndexNode)
    (h : ∀ c ∈ cs, resolveTree tb rp (resolveTree tb rp c) = resolveTree tb rp c) :
    resolveForest tb rp (resolveForest tb rp cs) = resolveForest tb rp cs := by
  induction cs with
  | nil => rfl
  | cons c cs ih =>
    rw [show resolveForest tb rp (c :: cs) =
        resolveTree tb rp c :: resolveForest tb rp cs from rfl]
    rw [show resolveForest tb rp (resolveTree tb rp c :: resolveForest tb rp cs) =
        resolveTree tb rp (resolveTree tb rp c)
          :: resolveForest tb rp (resolveForest tb rp cs) from rfl]
    rw [h c (List.mem_cons_self c cs), ih (fun x hx => h x (List.mem_cons_of_mem _ hx))]

theorem resolveTree_idem_aux (tb : Table) (rp : PyPath) :
    ∀ (k : Nat) (t : RepoIndexNode), sizeOf t ≤ k →
      resolveTree tb rp (resolveTree tb rp t) = resolveTree tb rp t := by
  intro k
  induction k with
  | zero =>
    intro t ht
    cases t with
    | mk n p isf hl hj ch obj ri sn =>
      simp only [RepoIndexNode.mk.sizeOf_spec] at ht
      omega
  | succ k ih =>
    intro t ht
    cases t with
    | mk n p isf hl hj ch obj ri sn =>
      have hch : ∀ c ∈ ch, resolveTree tb rp (resolveTree tb rp c) = resolveTree tb rp c := by
        intro c hc
        apply ih
        have h1 : sizeOf c < sizeOf ch := List.sizeOf_lt_of_mem hc
        have h2 : sizeOf ch < sizeOf (RepoIndexNode.mk n p isf hl hj ch obj ri sn) := by
          simp only [RepoIndexNode.mk.sizeOf_spec]
          omega
        simp only [RepoIndexNode.mk.sizeOf_spec] at ht
        omega
      rw [resolveTree_mk, resolveTree_mk, resolveForest_idem_of tb rp ch hch]
      by_cases hc : ((obj.import_.foldl (collectState tb p) (rp, [])).2).isEmpty
      · simp [hc]
      · simp [hc]

/-- C6: The Relative Import Resolver is idempotent on a whole tree: a
second run with the same Object Table and repository root rebuilds exactly
the same `resolved_imports` on every node (the source overwrites the field
from a value that depends only on the node's path, its import statements
and the table, all of which the resolver never changes). -/
theorem c6_resolver_idempotent (tb : Table) (rp : PyPath) (t : RepoIndexNode) :
    resolveTree tb rp (resolveTree tb rp t) = resolveTree tb rp t :=
  resolveTree_idem_aux tb rp (sizeOf t) t le_rfl

theorem invB_mk (n : String) (p : PyPath) (isf hl hj : Bool)
    (ch : List RepoIndexNode) (obj : PythonFileObjects) (ri : List Entry)
    (sn : List String) :
    invB (.mk n p isf hl hj ch obj ri sn) =
      ((if isf then ch.isEmpty else emptyObjectsB obj && ri.isEmpty) && invForest ch) := rfl

theorem invForest_cons (c : RepoIndexNode) (cs : List RepoIndexNode) :
    invForest (c :: cs) = (invB c && invForest cs) := rfl

theorem buildChildren_inv_aux :
    ∀ (k : Nat) (entries : List FSEntry) (base : PyPath),
      sizeOf entries ≤ k → invForest (buildChildren base entries) = true := by
  intro k
  induction k with
  | zero =>
    intro entries base ht
    cases entries with
    | nil => rfl
    | cons e rest =>
      simp only [List.cons.sizeOf_spec] at ht
      omega
  | succ k ih =>
    intro entries base ht
    cases entries with
    | nil => rfl
    | cons e rest =>
      simp only [List.cons.sizeOf_spec] at ht
      cases e with
      | dir nm sub =>
        simp only [FSEntry.dir.sizeOf_spec] at ht
        by_cases hd : stemStartsDunder nm
        · rw [show buildChildren base (FSEntry.dir nm sub :: rest) =
              buildChildren base rest from by simp [buildChildren, buildChildEntry, hd]]
          exact ih rest base (by omega)
        · rw [show buildChildren base (FSEntry.dir nm sub :: rest) =
              RepoIndexNode.mk nm (base ++ [nm]) false false false
                  (buildChildren (base ++ [nm]) sub) emptyObjects [] []
                :: buildChildren base rest from by
            simp [buildChildren, buildChildEntry, hd]]
          rw [invForest_cons, Bool.and_eq_true]
          constructor
          · rw [invB_mk]
            simp only [if_neg (by simp : ¬ false = true), Bool.and_eq_true]
            refine ⟨⟨rfl, rfl⟩, ?_⟩
            exact ih sub (base ++ [nm]) (by omega)
          · exact ih rest base (by omega)
      | file nm =>
        by_cases hf : (!(stemStartsDunder nm) && suffixOf nm == ".py") = true
        · rw [show buildChildren base (FSEntry.file nm :: rest) =
              RepoIndexNode.mk nm (base ++ [nm]) true false false [] emptyObjects [] []
                :: buildChildren base rest from by
            simp [buildChildren, buildChildEntry, hf]]
          rw [invForest_cons, Bool.and_eq_true]
          exact ⟨rfl, ih rest base (by omega)⟩
        · rw [show buildChildren base (FSEntry.file nm :: rest) =
              buildChildren base rest from by simp [buildChildren, buildChildEntry, hf]]
          exact ih rest base (by omega)

theorem extractTree_mk_dir (fs : FSMap) (nstd ncds : ImportStmt → Bool)
    (n : String) (p : PyPath) (hl hj : Bool) (ch : List RepoIndexNode)
    (obj : PythonFileObjects) (ri : List Entry) (sn : List String) :
    extractTree fs nstd ncds (.mk n p false hl hj ch obj ri sn) =
      match extractForest fs nstd ncds ch with
      | .error e => .error e
      | .ok ch' => .ok (.mk n p false hl hj ch' obj ri sn) := rfl

theorem extractTree_mk_file (fs : FSMap) (nstd ncds : ImportStmt → Bool)
    (n : String) (p : PyPath) (hl hj : Bool) (ch : List RepoIndexNode)
    (obj : PythonFileObjects) (ri : List Entry) (sn : List String) :
    extractTree fs nstd ncds (.mk n p true hl hj ch obj ri sn) =
      match _extract_file_modules fs nstd ncds p with
      | .error e => .error e
      | .ok objs =>
        match extractForest fs nstd ncds ch with
        | .error e => .error e
        | .ok ch' => .ok (.mk n p true hl hj ch' objs ri sn) := by
  cases hefm : _extract_file_modules fs nstd ncds p with
  | error e =>
    simp [extractTree, extract_node_objects, RepoIndexNode.is_file, RepoIndexNode.path, hefm]
  | ok objs =>
    cases hfs : extractForest fs nstd ncds ch with
    | error e =>
      simp [extractTree, extract_node_objects, RepoIndexNode.is_file, RepoIndexNode.path,
        hefm, hfs, RepoIndexNode.withObjects]
    | ok ch' =>
      simp [extractTree, extract_node_objects, RepoIndexNode.is_file, RepoIndexNode.path,
        hefm, hfs, RepoIndexNode.withObjects, RepoIndexNode.name, RepoIndexNode.children,
        RepoIndexNode.objects, RepoIndexNode.relative_imports, RepoIndexNode.snippet,
        RepoIndexNode.has_link_relative_imports, RepoIndexNode.has_join_code_snippets]

theorem extractForest_inv_of (fs : FSMap) (nstd ncds : ImportStmt → Bool)
    (cs : List RepoIndexNode)
    (hmem : ∀ c ∈ cs, ∀ c', invB c = true →
        extractTree fs nstd ncds c = .ok c' → invB c' = true) :
    ∀ cs', invForest cs = true → extractForest fs nstd ncds cs = .ok cs' →
      invForest cs' = true := by
  induction cs with
  | nil =>
    intro cs' _ h
    simp only [extractForest] at h
    cases h
    rfl
  | cons c cs ih =>
    intro cs' hinv h
    rw [invForest_cons, Bool.and_eq_true] at hinv
    simp only [extractForest] at h
    cases hc : extractTree fs nstd ncds c with
    | error e => rw [hc] at h; cases h
    | ok c' =>
      rw [hc] at h
      cases hcs : extractForest fs nstd ncds cs with
      | error e => rw [hcs] at h; cases h
      | ok cs'' =>
        rw [hcs] at h
        cases h
        rw [invForest_cons, Bool.and_eq_true]
        exact ⟨hmem c (List.mem_cons_self c cs) c' hinv.1 hc,
          ih (fun x hx => hmem x (List.mem_cons_of_mem _ hx)) cs'' hinv.2 hcs⟩

theorem extractTree_inv_aux (fs : FSMap) (nstd ncds : ImportStmt → Bool) :
    ∀ (k : Nat) (t t' : RepoIndexNode), sizeOf t ≤ k →
      invB t = true → extractTree fs nstd ncds t = .ok t' → invB t' = true := by
  intro k
  induction k with
  | zero =>
    intro t t' ht
    cases t with
    | mk n p isf hl hj ch obj ri sn =>
      simp only [RepoIndexNode.mk.sizeOf_spec] at ht
      omega
  | succ k ih =>
    intro t t' ht hinv hext
    cases t with
    | mk n p isf hl hj ch obj ri sn =>
      simp only [RepoIndexNode.mk.sizeOf_spec] at ht
      have hmem : ∀ c ∈ ch, ∀ c', invB c = true →
          extractTree fs nstd ncds c = .ok c' → invB c' = true := by
        intro c hc c' h1 h2
        have := List.sizeOf_lt_of_mem hc
        exact ih c c' (by omega) h1 h2
      rw [invB_mk, Bool.and_eq_true] at hinv
      cases isf with
      | false =>
        rw [extractTree_mk_dir] at hext
        cases hcs : extractForest fs nstd ncds ch with
        | error e => rw [hcs] at hext; cases hext
        | ok ch' =>
          rw [hcs] at hext
          cases hext
          rw [invB_mk, Bool.and_eq_true]
          exact ⟨hinv.1, extractForest_inv_of fs nstd ncds ch hmem ch' hinv.2 hcs⟩
      | true =>
        rw [extractTree_mk_file] at hext
        cases hefm : _extract_file_modules fs nstd ncds p with
        | error e => rw [hefm] at hext; cases hext
        | ok objs =>
          rw [hefm] at hext
          cases hcs : extractForest fs nstd ncds ch with
          | error e => rw [hcs] at hext; cases hext
          | ok ch' =>
            rw [hcs] at hext
            cases hext
            rw [invB_mk, Bool.and_eq_true]
            have hch : ch = [] := List.isEmpty_iff.mp (by simpa using hinv.1)
            subst hch
            cases hcs
            exact ⟨rfl, rfl⟩

theorem resolveForest_inv_of (tb : Table) (rp : PyPath) (cs : List RepoIndexNode)
    (hmem : ∀ c ∈ cs, invB c = true → invB (resolveTree tb rp c) = true) :
    invForest cs = true → invForest (resolveForest tb rp cs) = true := by
  induction cs with
  | nil => intro _; rfl
  | cons c cs ih =>
    intro hinv
    rw [invForest_cons, Bool.and_eq_true] at hinv
    rw [show resolveForest tb rp (c :: cs) =
        resolveTree tb rp c :: resolveForest tb rp cs from rfl]
    rw [invForest_cons, Bool.and_eq_true]
    exact ⟨hmem c (List.mem_cons_self c cs) hinv.1,
      ih (fun x hx => hmem x (List.mem_cons_of_mem _ hx)) hinv.2⟩

theorem resolveTree_inv_aux (tb : Table) (rp : PyPath) :
    ∀ (k : Nat) (t : RepoIndexNode), sizeOf t ≤ k →
      invB t = true → invB (resolveTree tb rp t) = true := by
  intro k
  induction k with
  | zero =>
    intro t ht
    cases t with
    | mk n p isf hl hj ch obj ri sn =>
      simp only [RepoIndexNode.mk.sizeOf_spec] at ht
      omega
  | succ k ih =>
    intro t ht hinv
    cases t with
    | mk n p isf hl hj ch obj ri sn =>
      simp only [RepoIndexNode.mk.sizeOf_spec] at ht
      have hmem : ∀ c ∈ ch, invB c = true → invB (resolveTree tb rp c) = true := by
        intro c hc h1
        have := List.sizeOf_lt_of_mem hc
        exact ih c (by omega) h1
      rw [invB_mk, Bool.and_eq_true] at hinv
      rw [resolveTree_mk, invB_mk, Bool.and_eq_true]
      cases isf with
      | true =>
        have hch : ch = [] := List.isEmpty_iff.mp (by simpa using hinv.1)
        subst hch
        exact ⟨rfl, rfl⟩
      | false =>
        have hobj : emptyObjectsB obj = true ∧ ri.isEmpty = true := by
          have := hinv.1
          simp only [if_neg (by simp : ¬ false = true), Bool.and_eq_true] at this
          exact this
        have himp : obj.import_ = [] := by
          have := hobj.1
          simp only [emptyObjectsB, Bool.and_eq_true] at this
          exact List.isEmpty_iff.mp this.1.1.1
        constructor
        · simp only [if_neg (by simp : ¬ false = true), Bool.and_eq_true]
          rw [himp]
          exact ⟨hobj.1, by simp [hobj.2]⟩
        · exact resolveForest_inv_of tb rp ch hmem hinv.2

/-- C8: The structural invariant — every file node has an empty child
sequence, every directory node has empty declaration buckets and an empty
`resolved_imports` sequence — holds after tree construction, is preserved
by a successful extraction stage, and is preserved by the import-resolution
stage.  (The object-table stage reads the tree without modifying it, so
there is nothing to preserve there.) -/
theorem c8_tree_invariants :
    (∀ (nm : String) (base : PyPath) (entries : List FSEntry),
        invB (create_tree nm base entries) = true)
    ∧ (∀ (fs : FSMap) (nstd ncds : ImportStmt → Bool) (t t' : RepoIndexNode),
        invB t = true → extractTree fs nstd ncds t = .ok t' → invB t' = true)
    ∧ (∀ (tb : Table) (rp : PyPath) (t : RepoIndexNode),
        invB t = true → invB (resolveTree tb rp t) = true) := by
  refine ⟨?_, ?_, ?_⟩
  · intro nm base entries
    rw [create_tree, invB_mk, Bool.and_eq_true]
    refine ⟨by simp [emptyObjectsB, emptyObjects], ?_⟩
    exact buildChildren_inv_aux (sizeOf entries) entries base le_rfl
  · intro fs nstd ncds t t' hinv hext
    exact extractTree_inv_aux fs nstd ncds (sizeOf t) t t' le_rfl hinv hext
  · intro tb rp t hinv
    exact resolveTree_inv_aux tb rp (sizeOf t) t le_rfl hinv

/-- The one-file repository used to witness C8. -/
def c8fs : FSMap := [(["r", "a.py"], some [])]

/-- Its constructed tree. -/
def c8t0 : RepoIndexNode := create_tree "r" ["r"] [FSEntry.file "a.py"]

/-- C8 witness: the invariant holds on a concrete tree after construction,
after a successful extraction (which maps `c8t0` to itself), and after
resolution. -/
theorem c8_tree_invariants_witness :
    invB (create_tree "r" ["r"] [FSEntry.file "a.py"]) = true
    ∧ invB c8t0 = true
    ∧ invB (resolveTree [] ["r"] c8t0) = true :=
  ⟨c8_tree_invariants.1 "r" ["r"] [FSEntry.file "a.py"],
   c8_tree_invariants.2.1 c8fs (fun _ => true) (fun _ => true) c8t0 c8t0 (by rfl) (by rfl),
   c8_tree_invariants.2.2 [] ["r"] c8t0 (by rfl)⟩

/-- The C4 witness table: `r/m.py` holds a function `a` and an import `z`. -/
def c4table : Table :=
  [(["r", "m.py"], [⟨"function", "a", .empty⟩, ⟨"import", "z", .empty⟩])]

/-- `from m import *`. -/
def c4stmt : ImportStmt := .impFrom 0 (some "m") [⟨"*", none⟩] "from m import *"

/-- C4 witness: at the concrete wildcard statement and table, the
lookup-and-filter keeps exactly the non-import entries of the target. -/
theorem c4_wildcard_and_named_filtering_witness :
    lookupFilter c4table ["r", "m.py"] (cleanFunctions c4stmt.names).2
        (cleanFunctions c4stmt.names).1 =
      [Entry.mk "function" "a" .empty, Entry.mk "import" "z" .empty].filter
        (fun x => !(containsSub ("import".data) x.tag.data)) :=
  (c4_wildcard_and_named_filtering c4table ["r", "m.py"]
    [⟨"function", "a", .empty⟩, ⟨"import", "z", .empty⟩] c4stmt rfl).1 rfl

/-- The C7 witness buckets: one import, one function, one variable, one
class. -/
def c7obj : PythonFileObjects :=
  ⟨[.imp [⟨"m", none⟩] "import m"], [⟨"f", "def f():\n    pass"⟩],
   [⟨[.nameT "x"], "x = 1"⟩], [⟨"C", "class C:\n    pass"⟩]⟩

/-- The flattened triplets of `c7obj`. -/
def c7list : List Entry :=
  [⟨"import", "m", .imp (.imp [⟨"m", none⟩] "import m")⟩,
   ⟨"function", "f", .func ⟨"f", "def f():\n    pass"⟩⟩,
   ⟨"variable", "x", .varD ⟨[.nameT "x"], "x = 1"⟩⟩,
   ⟨"class", "C", .cls ⟨"C", "class C:\n    pass"⟩⟩]

/-- C7 witness: the concrete flattening has one triplet per declaration
and is found under the inserted path. -/
theorem c7_table_entry_length_witness :
    c7list.length = c7obj.import_.length + c7obj.function_.length +
        c7obj.variable_.length + c7obj.class_.length
    ∧ ∀ (acc : Table) (p : PyPath), alistLookup (alistInsert acc p c7list) p = some c7list :=
  c7_table_entry_length c7obj c7list (by rfl)

/-- The C9 witness buckets: one top-level `a, b = 1, 2` (tuple target). -/
def c9obj : PythonFileObjects := ⟨[], [], [⟨[.tupleT], "a, b = 1, 2"⟩], []⟩

/-- C9 witness: the concrete file with a tuple-target assignment makes the
flattening and the Object Table build raise. -/
theorem c9_flatten_requires_name_targets_witness :
    (∃ e, file_objects_2_list c9obj = .error e)
    ∧ ∀ nm p hl hj ch ri sn,
        ∃ e, build_object_table (.mk nm p true hl hj ch c9obj ri sn) = .error e :=
  (c9_flatten_requires_name_targets c9obj).2
    ⟨⟨[.tupleT], "a, b = 1, 2"⟩, List.mem_cons_self _ _, rfl⟩
